import Mathlib

/-!
Shallow embedding of the ManSearchProvider core (`SearchEngine` in
`SearchEngine.ts` and the `SearchProvider` adapter in `SearchProvider.ts`).

Modelling choices:
* Strings are `List Char` (`Str`), so the JS string operations
  (`trim`, `split`, `join`, the one regular expression) become executable
  list functions.
* The `Gio.Cancellable` token is an observation stream `obs : Nat → Bool`:
  the n-th call to `is_cancelled()` during a run returns `obs n`.  A counter
  is threaded through every operation in a small state record `PState`,
  which also records every `Gio.Subprocess.new` invocation (the observable
  process-spawning side effect).
* Exceptions are `Except Unit`: `Except.error ()` is an exception escaping
  the function (a rejected promise), `Except.ok` a normal return.
* The operating environment (GLib/Gio) is an oracle record `SubprocEnv`:
  `shellParse` models `GLib.shell_parse_argv`, `spawnOk` tells whether
  `Gio.Subprocess.new` succeeds or throws, `communicate` models
  `communicate_utf8_async` (which may advance the observation counter and
  either return `(stdout, stderr)` or throw a caught `GLib.Error`).
-/

namespace ManSearch

abbrev Str := List Char

/-- Tuple type for man page metadata: `[pageName, section, description]`
(the `ManPageMetaInfo` type of `SearchEngine.ts`). -/
abbrev ManPageMetaInfo := Str × Str × Str

/-- The character class matched by `\s` in a JavaScript regular expression
(also the set removed by `String.prototype.trim`). -/
def isJsSpace (c : Char) : Bool :=
  let n := c.toNat
  (decide (9 ≤ n) && decide (n ≤ 13)) || n == 32 || n == 160 || n == 5760 ||
  (decide (8192 ≤ n) && decide (n ≤ 8202)) || n == 8232 || n == 8233 ||
  n == 8239 || n == 8287 || n == 12288 || n == 65279

/-- JavaScript line terminators: the characters NOT matched by `.` in a regex. -/
def isLineTerm (c : Char) : Bool :=
  let n := c.toNat
  n == 10 || n == 13 || n == 8232 || n == 8233

/-- The separator class of `output.trim().split(/[\n\0]/)`. -/
def isSep (c : Char) : Bool := c == '\n' || c == '\x00'

/-- Left part of `String.prototype.trim`. -/
def trimLeft (s : Str) : Str := s.dropWhile isJsSpace

/-- Right part of `String.prototype.trim`. -/
def trimRight (s : Str) : Str := (s.reverse.dropWhile isJsSpace).reverse

/-- `String.prototype.trim`. -/
def trimStr (s : Str) : Str := trimRight (trimLeft s)

/-- `String.prototype.split` on a character class: every separator occurrence
cuts, empty pieces are kept (so the result is always non-empty). -/
def splitOnP (p : Char → Bool) : Str → List Str
  | [] => [[]]
  | c :: cs =>
    if p c then [] :: splitOnP p cs
    else
      match splitOnP p cs with
      | [] => [[c]]
      | l :: ls => (c :: l) :: ls

/-- `Array.prototype.join` with a separator string. -/
def joinSep (sep : Str) : List Str → Str
  | [] => []
  | [x] => x
  | x :: y :: ys => x ++ sep ++ joinSep sep (y :: ys)

/-!  The one regular expression of `parseOutput`:
`/^([^\s]+)\s*\(([^)]+)\)\s*-\s*(.+)/`, with JavaScript leftmost-greedy
backtracking semantics, specialised to this pattern.

After a fixed name capture the remainder `\s*\(([^)]+)\)\s*-\s*` is
deterministic (each greedy sub-match is forced, because backtracking it
re-encounters a character the next literal cannot match); only the name
capture `([^\s]+)` (tried longest first) and the final `\s*(.+)` (where `.`
refuses line terminators, so `\s*` may have to give back one whitespace
character) genuinely backtrack. -/

/-- Match `\s*(.+)` against the text after the `-`, returning the raw
description capture.  `\s*` is greedy; if nothing is left for `.+` it gives
back exactly one character, which must not be a line terminator — the
capture is then that single character (all later characters are line
terminators, which `.` refuses). -/
def matchTail (r4 : Str) : Option Str :=
  let w := r4.takeWhile isJsSpace
  let r := r4.dropWhile isJsSpace
  if r.isEmpty then
    match w.reverse.dropWhile isLineTerm with
    | c :: _ => some [c]
    | [] => none
  else some (r.takeWhile (fun c => !(isLineTerm c)))

/-- Match `\s*\(([^)]+)\)\s*-\s*(.+)` against the text following a name
candidate, returning the raw section and description captures. -/
def afterName (rest : Str) : Option (Str × Str) :=
  match rest.dropWhile isJsSpace with
  | '(' :: r2 =>
    let sec := r2.takeWhile (fun c => !(c == ')'))
    if sec.isEmpty then none
    else
      match r2.dropWhile (fun c => !(c == ')')) with
      | ')' :: r3 =>
        match r3.dropWhile isJsSpace with
        | '-' :: r4 => (matchTail r4).map (fun d => (sec, d))
        | _ => none
      | _ => none
  | _ => none

/-- `line.match(/^([^\s]+)\s*\(([^)]+)\)\s*-\s*(.+)/)`: the greedy name
capture `([^\s]+)` tries every non-empty prefix of the maximal
non-whitespace run, longest first. -/
def matchLine (s : Str) : Option (Str × Str × Str) :=
  let n := (s.takeWhile (fun c => !(isJsSpace c))).length
  ((List.range n).map (fun i => n - i)).findSome? (fun len =>
    (afterName (s.drop len)).map (fun sd => (s.take len, sd.1, sd.2)))

/-- The tuple pushed by `parseOutput` for one line:
`[pageName.trim(), section.trim(), description.trim()]`, or `none` for a
line that does not match the pattern (it is only logged). -/
def lineTuple (l : Str) : Option ManPageMetaInfo :=
  (matchLine l).map (fun t => (trimStr t.1, trimStr t.2.1, trimStr t.2.2))

/-- Truthiness of `line.trim()`: the line has a non-whitespace character. -/
def hasContent (l : Str) : Bool := l.any (fun c => !(isJsSpace c))

/-- `output.trim().split(/[\n\0]/).filter(line => line.trim())`. -/
def linesOf (output : Str) : List Str :=
  (splitOnP isSep (trimStr output)).filter hasContent

/-- Run state: the observation counter of the cancellation token, and the
trace of argument vectors passed to `Gio.Subprocess.new`. -/
structure PState where
  k : Nat
  spawned : List (List Str)
deriving DecidableEq

/-- One `cancellable?.is_cancelled()` call: reads the next observation. -/
def checkCancel (obs : Nat → Bool) (s : PState) : Bool × PState :=
  (obs s.k, ⟨s.k + 1, s.spawned⟩)

/-- Loop body of `SearchEngine.parseOutput`: for each line, push the tuple
on a pattern match (an unmatched line is only logged), then check the
cancellation token; a positive check throws `CancelledError`, discarding
the accumulated tuples.  The source pushes into an accumulator before the
check; since the throw discards the accumulator, prepending on the
non-cancelled path is observably identical. -/
def parseLines (obs : Nat → Bool) : List Str → PState → Except Unit (List ManPageMetaInfo) × PState
  | [], s => (.ok [], s)
  | l :: ls, s =>
    if obs s.k then (.error (), ⟨s.k + 1, s.spawned⟩)
    else
      match parseLines obs ls ⟨s.k + 1, s.spawned⟩ with
      | (.ok ts, s2) =>
        (.ok (match lineTuple l with | some t => t :: ts | none => ts), s2)
      | (.error e, s2) => (.error e, s2)

/-- `SearchEngine.parseOutput`: entry cancellation check (throwing
`CancelledError`, modelled as `Except.error ()`), then split/filter the
output and run the per-line loop. -/
def parseOutput (obs : Nat → Bool) (output : Str) (s : PState) :
    Except Unit (List ManPageMetaInfo) × PState :=
  if obs s.k then (.error (), ⟨s.k + 1, s.spawned⟩)
  else parseLines obs (linesOf output) ⟨s.k + 1, s.spawned⟩

/-- Oracle for the operating environment consumed by `runSubprocess`. -/
structure SubprocEnv where
  /-- `GLib.shell_parse_argv`: `none` models the `!success || argv === null`
  branch of the source. -/
  shellParse : Str → Option (List Str)
  /-- Whether `Gio.Subprocess.new` succeeds (`true`) or throws (`false`). -/
  spawnOk : List Str → Bool
  /-- `subprocess.communicate_utf8_async`: may advance the observation
  counter; returns `(stdout, stderr)` or throws a `GLib.Error`
  (`Except.error ()`, caught by the source's `catch` block). -/
  communicate : List Str → Nat → Except Unit (Str × Str) × Nat

/-- `SearchEngine.runSubprocess`.  Note the source calls
`Gio.Subprocess.new` OUTSIDE its `try` block: a spawn failure is an
uncaught exception (`Except.error ()` in the result), while every failure
inside the `try` (cancellation, `GLib.Error`, `CancelledError` from the
parser) is caught and normalised to `null` (`Except.ok none`). -/
def runSubprocess (env : SubprocEnv) (obs : Nat → Bool) (command : Str) (s : PState) :
    Except Unit (Option (List ManPageMetaInfo)) × PState :=
  if obs s.k then (.ok none, ⟨s.k + 1, s.spawned⟩)
  else
    match env.shellParse command with
    | none => (.ok none, ⟨s.k + 1, s.spawned⟩)
    | some argv =>
      if env.spawnOk argv then
        match env.communicate argv (s.k + 1) with
        | (.error _, k2) => (.ok none, ⟨k2, s.spawned ++ [argv]⟩)
        | (.ok (stdout, _stderr), k2) =>
          match parseOutput obs stdout ⟨k2, s.spawned ++ [argv]⟩ with
          | (.ok ts, s3) => (.ok (some ts), s3)
          | (.error _, s3) => (.ok none, s3)
      else (.error (), ⟨s.k + 1, s.spawned ++ [argv]⟩)

/-- The command line built by `searchManPages`:
`` `apropos --and ${terms.join(' ')}` ``. -/
def aproposCommand (terms : List Str) : Str :=
  "apropos --and ".data ++ joinSep [' '] terms

/-- The identifier built for one result tuple: `` `${section}|${pageName}` ``. -/
def mkIdentifier (pageName sect : Str) : Str :=
  sect ++ '|' :: pageName

/-- `SearchEngine.searchManPages`. -/
def searchManPages (env : SubprocEnv) (obs : Nat → Bool) (terms : List Str) (s : PState) :
    Except Unit (List Str) × PState :=
  if obs s.k then (.ok [], ⟨s.k + 1, s.spawned⟩)
  else
    match runSubprocess env obs (aproposCommand terms) ⟨s.k + 1, s.spawned⟩ with
    | (.error e, s2) => (.error e, s2)
    | (.ok none, s2) => (.ok [], s2)
    | (.ok (some ts), s2) =>
      if ts.length = 0 then (.ok [], s2)
      else if obs s2.k then (.ok [], ⟨s2.k + 1, s2.spawned⟩)
      else if obs (s2.k + 1) then (.ok [], ⟨s2.k + 2, s2.spawned⟩)
      else (.ok (ts.map (fun t => mkIdentifier t.1 t.2.1)), ⟨s2.k + 2, s2.spawned⟩)

/-- The command line built by `getPageInfo`:
`` `whatis -l -s ${identifier.split('|').join(' ')}` ``. -/
def describeCommand (identifier : Str) : Str :=
  "whatis -l -s ".data ++ joinSep [' '] (splitOnP (fun c => c == '|') identifier)

/-- `SearchEngine.getPageInfo`. -/
def getPageInfo (env : SubprocEnv) (obs : Nat → Bool) (identifier : Str) (s : PState) :
    Except Unit (Option (Str × Str)) × PState :=
  if obs s.k then (.ok none, ⟨s.k + 1, s.spawned⟩)
  else
    match runSubprocess env obs (describeCommand identifier) ⟨s.k + 1, s.spawned⟩ with
    | (.error e, s2) => (.error e, s2)
    | (.ok none, s2) => (.ok none, s2)
    | (.ok (some ts), s2) =>
      match ts with
      | [] => (.ok none, s2)
      | t :: _ =>
        if obs s2.k then (.ok none, ⟨s2.k + 1, s2.spawned⟩)
        else if obs (s2.k + 1) then (.ok none, ⟨s2.k + 2, s2.spawned⟩)
        else (.ok (some (t.1 ++ " (".data ++ t.2.1 ++ [')'], t.2.2)), ⟨s2.k + 2, s2.spawned⟩)

/-- `SearchProvider.filterResults`: ignores the shell-suggested maximum and
truncates to its own constant 7. -/
def filterResults (identifiers : List Str) (_maxResults : Nat) : List Str :=
  if identifiers.length ≤ 7 then identifiers else identifiers.take 7

/-- `(terms[0]?.length ?? 0)`. -/
def firstTermLen : List Str → Nat
  | [] => 0
  | t :: _ => t.length

/-- `SearchProvider.getInitialResultSet`. -/
def getInitialResultSet (env : SubprocEnv) (obs : Nat → Bool) (terms : List Str) (s : PState) :
    Except Unit (List Str) × PState :=
  if obs s.k then (.ok [], ⟨s.k + 1, s.spawned⟩)
  else if firstTermLen terms < 2 then (.ok [], ⟨s.k + 1, s.spawned⟩)
  else
    match searchManPages env obs terms ⟨s.k + 1, s.spawned⟩ with
    | (.error e, s2) => (.error e, s2)
    | (.ok ids, s2) =>
      if obs s2.k then (.ok [], ⟨s2.k + 1, s2.spawned⟩)
      else (.ok ids, ⟨s2.k + 1, s2.spawned⟩)

/-- The fields of a `ResultMeta` object relevant to the engine (the
`createIcon` closure and the display scale factor are pure UI values with
no influence on control flow and are not modelled). -/
structure ResultMeta where
  id : Str
  name : Str
  description : Str
deriving DecidableEq

/-- The `for (const identifier of identifiers)` loop of
`SearchProvider.getResultMetas`, followed by the post-loop cancellation
check. -/
def metasLoop (env : SubprocEnv) (obs : Nat → Bool) :
    List Str → List ResultMeta → PState → Except Unit (List ResultMeta) × PState
  | [], acc, s =>
    if obs s.k then (.ok [], ⟨s.k + 1, s.spawned⟩)
    else (.ok acc, ⟨s.k + 1, s.spawned⟩)
  | ident :: rest, acc, s =>
    if obs s.k then (.ok [], ⟨s.k + 1, s.spawned⟩)
    else
      match getPageInfo env obs ident ⟨s.k + 1, s.spawned⟩ with
      | (.error e, s2) => (.error e, s2)
      | (.ok none, s2) => (.ok [], s2)
      | (.ok (some p), s2) =>
        metasLoop env obs rest (acc ++ [⟨ident, p.1, p.2⟩]) s2

/-- `SearchProvider.getResultMetas`. -/
def getResultMetas (env : SubprocEnv) (obs : Nat → Bool) (identifiers : List Str) (s : PState) :
    Except Unit (List ResultMeta) × PState :=
  if obs s.k then (.ok [], ⟨s.k + 1, s.spawned⟩)
  else metasLoop env obs identifiers [] ⟨s.k + 1, s.spawned⟩

/-- Well-formed `name (section) - description` line: it matches the parser's
pattern and contains neither of the two record separators. -/
def WfLine (l : Str) : Prop :=
  (matchLine l).isSome = true ∧ '\n' ∉ l ∧ '\x00' ∉ l

instance (l : Str) : Decidable (WfLine l) := by
  unfold WfLine
  infer_instance

/-- Apply a function to the last element of a list only. -/
def mapLast (f : Str → Str) : List Str → List Str
  | [] => []
  | [x] => [f x]
  | x :: y :: ys => x :: mapLast f (y :: ys)

/-- Modelled from the spec: the describe command line as claim C2 words it
(`whatis -l -s <name> <section>`, the name token before the section token
after splitting the identifier on the separator), for comparison with the
source's `describeCommand`. -/
def describeCommandSpec (identifier : Str) : Str :=
  match splitOnP (fun c => c == '|') identifier with
  | [sect, name] => "whatis -l -s ".data ++ name ++ ' ' :: sect
  | parts => "whatis -l -s ".data ++ joinSep [' '] parts

/-! Concrete instances used by witnesses and counterexamples. -/

/-- A token that is never cancelled. -/
def obsFalse : Nat → Bool := fun _ => false

/-- A token already in the cancelled state (level-triggered, stays set). -/
def obsTrue : Nat → Bool := fun _ => true

/-- Initial run state. -/
def pstate0 : PState := ⟨0, []⟩

/-- An environment in which tokenization and spawning succeed and the
spawned command prints `ls (1) - list directory contents`. -/
def envLs : SubprocEnv where
  shellParse := fun c => some [c]
  spawnOk := fun _ => true
  communicate := fun _ k => (.ok ("ls (1) - list directory contents".data, []), k)

/-- An environment in which `Gio.Subprocess.new` throws (the external
command is missing or unexecutable). -/
def envSpawnFail : SubprocEnv where
  shellParse := fun c => some [c]
  spawnOk := fun _ => false
  communicate := fun _ k => (.ok ([], []), k)

/-! Helper lemmas. -/

theorem splitOnP_ne_nil (p : Char → Bool) (s : Str) : splitOnP p s ≠ [] := by
  cases s with
  | nil => simp [splitOnP]
  | cons c cs =>
    simp only [splitOnP]
    split
    · simp
    · split <;> simp

theorem splitOnP_append_pure (p : Char → Bool) (l s : Str) (h : ∀ a ∈ l, p a = false) :
    splitOnP p (l ++ s) = (splitOnP p s).modifyHead (l ++ ·) := by
  induction l with
  | nil =>
    cases h2 : splitOnP p s <;> simp_all
  | cons c cs ih =>
    have hc : p c = false := h c (by simp)
    have hrest : ∀ a ∈ cs, p a = false := fun a ha => h a (by simp [ha])
    simp only [List.cons_append, splitOnP, hc, Bool.false_eq_true, if_false]
    cases h2 : splitOnP p s with
    | nil => exact absurd h2 (splitOnP_ne_nil p s)
    | cons y ys =>
      rw [show cs.append s = cs ++ s from rfl, ih hrest, h2]
      simp

theorem splitOnP_pure (p : Char → Bool) (l : Str) (h : ∀ a ∈ l, p a = false) :
    splitOnP p l = [l] := by
  have := splitOnP_append_pure p l [] h
  simpa [splitOnP] using this

theorem splitOnP_sep_cons (p : Char → Bool) (c : Char) (s : Str) (hc : p c = true) :
    splitOnP p (c :: s) = [] :: splitOnP p s := by
  simp [splitOnP, hc]

/-- Splitting `sect ++ "|" ++ name` on the separator recovers the two
components, provided neither contains the separator. -/
theorem splitOnP_identifier (name sect : Str)
    (h1 : '|' ∉ name) (h2 : '|' ∉ sect) :
    splitOnP (fun c => c == '|') (mkIdentifier name sect) = [sect, name] := by
  have hn : ∀ a ∈ name, (a == '|') = false := by
    intro a ha
    simp only [beq_eq_false_iff_ne, ne_eq]
    rintro rfl; exact h1 ha
  have hs : ∀ a ∈ sect, (a == '|') = false := by
    intro a ha
    simp only [beq_eq_false_iff_ne, ne_eq]
    rintro rfl; exact h2 ha
  unfold mkIdentifier
  rw [splitOnP_append_pure _ _ _ hs, splitOnP_sep_cons _ _ _ (by simp),
    splitOnP_pure _ _ hn]
  simp

/-! Claim theorems. -/

/-- Claim C3: for every list of identifiers and every caller-suggested
maxResults value, `filterResults` returns exactly the contiguous prefix of
length `min 7 (length of the input)` of its input, independent of
maxResults. -/
theorem filterResults_min_seven_take (ids : List Str) (m m2 : Nat) :
    filterResults ids m = ids.take (min 7 ids.length)
    ∧ filterResults ids m = filterResults ids m2 := by
  refine ⟨?_, rfl⟩
  unfold filterResults
  split
  · next h => rw [min_eq_right h, List.take_length]
  · next h => rw [min_eq_left (le_of_not_le h)]

/-- Claim C1 (code bug): `Gio.Subprocess.new` is invoked outside the
`try` block of `runSubprocess`, so a spawn failure propagates an exception
(`Except.error ()`) out of `runSubprocess`, `searchManPages` and
`getPageInfo` instead of normalising to the absence value. -/
theorem spawn_failure_exception_escapes :
    (runSubprocess envSpawnFail obsFalse (aproposCommand ["ls".data]) pstate0).1 = .error ()
    ∧ (searchManPages envSpawnFail obsFalse ["ls".data] pstate0).1 = .error ()
    ∧ (getPageInfo envSpawnFail obsFalse "1|ls".data pstate0).1 = .error () :=
  ⟨rfl, rfl, rfl⟩

/-- Claim C2, counterexample: on identifier `1|ls` the source builds
`whatis -l -s 1 ls`, not `whatis -l -s ls 1` as the claim (name token
before section token) would have it. -/
theorem describeCommand_order_counterexample :
    describeCommand ("1|ls".data) ≠ describeCommandSpec ("1|ls".data) := by
  decide

/-- Claim C2, amended: for every record identifier of the form
`section|name` (neither component containing `|`), `getPageInfo` builds the
describe command line as `whatis -l -s <section> <name>`, i.e. with the
SECTION token placed before the name token after splitting the identifier
on `|`. -/
theorem describeCommand_section_before_name (sect name : Str)
    (h1 : '|' ∉ sect) (h2 : '|' ∉ name) :
    describeCommand (mkIdentifier name sect)
      = "whatis -l -s ".data ++ sect ++ ' ' :: name := by
  unfold describeCommand
  rw [splitOnP_identifier name sect h2 h1]
  simp [joinSep]

/-- Claim C2 witness: the amended statement at identifier `1|ls`. -/
theorem describeCommand_section_before_name_witness :
    describeCommand (mkIdentifier "ls".data "1".data)
      = "whatis -l -s 1 ls".data :=
  (describeCommand_section_before_name "1".data "ls".data (by decide)
    (by decide)).trans (by decide)

/-- Claim C6: for every record tuple `(name, section, _)` in which neither
name nor section contains `|`, the derived identifier `section|name`, when
split on `|` (as the Detail Stage does), recovers exactly the pair
`(section, name)`. -/
theorem identifier_roundtrip (name sect : Str)
    (h1 : '|' ∉ name) (h2 : '|' ∉ sect) :
    splitOnP (fun c => c == '|') (mkIdentifier name sect) = [sect, name] :=
  splitOnP_identifier name sect h1 h2

/-- Claim C6 witness: round trip of the identifier built from
`("ls", "1")`. -/
theorem identifier_roundtrip_witness :
    splitOnP (fun c => c == '|') (mkIdentifier "ls".data "1".data)
      = ["1".data, "ls".data] :=
  identifier_roundtrip "ls".data "1".data (by decide) (by decide)

/-- Claim C7: when the underlying describe command's output parses to a
non-empty tuple list and the token is not cancelled at the remaining
check points, `getPageInfo` returns the pair built from the FIRST tuple:
`("name (section)", description)`. -/
theorem getPageInfo_first_tuple (env : SubprocEnv) (obs : Nat → Bool) (ident : Str)
    (s s2 : PState) (t : ManPageMetaInfo) (ts : List ManPageMetaInfo)
    (h0 : obs s.k = false)
    (hr : runSubprocess env obs (describeCommand ident) ⟨s.k + 1, s.spawned⟩
      = (.ok (some (t :: ts)), s2))
    (h2 : obs s2.k = false) (h3 : obs (s2.k + 1) = false) :
    (getPageInfo env obs ident s).1
      = .ok (some (t.1 ++ " (".data ++ t.2.1 ++ [')'], t.2.2)) := by
  unfold getPageInfo
  rw [h0, hr]
  simp [h2, h3]

/-- Claim C7 witness: example E3 — identifier `1|ls` against command output
`ls (1) - list directory contents` yields
`("ls (1)", "list directory contents")`. -/
theorem getPageInfo_first_tuple_witness :
    (getPageInfo envLs obsFalse "1|ls".data pstate0).1
      = .ok (some ("ls (1)".data, "list directory contents".data)) := by
  have h := getPageInfo_first_tuple envLs obsFalse "1|ls".data pstate0
    ⟨4, [[describeCommand "1|ls".data]]⟩
    ("ls".data, "1".data, "list directory contents".data) []
    rfl rfl rfl rfl
  exact h.trans rfl

/-- Claim C4: a token in the cancelled state at call entry (level-triggered:
set from the entry observation on) makes `searchManPages` return the empty
list and `getPageInfo` return the absence value; moreover (for any token
history) a non-empty / present result is only ever returned when the final
check immediately before returning observed "not cancelled", so
otherwise-valid computed data is discarded when cancellation is observed
only at that final check. -/
theorem cancelled_token_empty (env : SubprocEnv) (obs : Nat → Bool)
    (terms : List Str) (ident : Str) (s : PState)
    (hc : ∀ i, s.k ≤ i → obs i = true) :
    ((searchManPages env obs terms s).1 = .ok []
      ∧ (getPageInfo env obs ident s).1 = .ok none)
    ∧ (∀ (obs2 : Nat → Bool) (s0 : PState) (r : List Str),
        (searchManPages env obs2 terms s0).1 = .ok r → r ≠ [] →
        obs2 ((searchManPages env obs2 terms s0).2.k - 1) = false)
    ∧ (∀ (obs2 : Nat → Bool) (s0 : PState) (p : Str × Str),
        (getPageInfo env obs2 ident s0).1 = .ok (some p) →
        obs2 ((getPageInfo env obs2 ident s0).2.k - 1) = false) := by
  refine ⟨⟨?_, ?_⟩, ?_, ?_⟩
  · unfold searchManPages
    rw [hc s.k le_rfl]
    rfl
  · unfold getPageInfo
    rw [hc s.k le_rfl]
    rfl
  · intro obs2 s0 r hr hne
    unfold searchManPages at hr ⊢
    by_cases h1 : obs2 s0.k
    · rw [h1] at hr
      simp at hr
      exact absurd hr hne
    · rw [eq_false_of_ne_true h1] at hr ⊢
      simp only [Bool.false_eq_true, if_false] at hr ⊢
      rcases hrs : runSubprocess env obs2 (aproposCommand terms) ⟨s0.k + 1, s0.spawned⟩
        with ⟨r2, s2⟩
      rw [hrs] at hr
      cases r2 with
      | error e => dsimp only at hr; cases hr
      | ok o =>
        cases o with
        | none => dsimp only at hr ⊢; simp at hr; exact absurd hr hne
        | some ts =>
          dsimp only at hr ⊢
          by_cases hl : ts.length = 0
          · rw [if_pos hl] at hr; simp at hr; exact absurd hr hne
          · rw [if_neg hl] at hr ⊢
            by_cases hk : obs2 s2.k
            · rw [hk] at hr; simp at hr; exact absurd hr hne
            · rw [eq_false_of_ne_true hk] at hr ⊢
              simp only [Bool.false_eq_true, if_false] at hr ⊢
              by_cases hk2 : obs2 (s2.k + 1)
              · rw [hk2] at hr; simp at hr; exact absurd hr hne
              · rw [eq_false_of_ne_true hk2] at hr ⊢
                simpa using eq_false_of_ne_true hk2
  · intro obs2 s0 p hp
    unfold getPageInfo at hp ⊢
    by_cases h1 : obs2 s0.k
    · rw [h1] at hp; simp at hp
    · rw [eq_false_of_ne_true h1] at hp ⊢
      simp only [Bool.false_eq_true, if_false] at hp ⊢
      rcases hrs : runSubprocess env obs2 (describeCommand ident) ⟨s0.k + 1, s0.spawned⟩
        with ⟨r2, s2⟩
      rw [hrs] at hp
      cases r2 with
      | error e => dsimp only at hp; cases hp
      | ok o =>
        cases o with
        | none => dsimp only at hp; simp at hp
        | some ts =>
          cases ts with
          | nil => dsimp only at hp; simp at hp
          | cons t ts2 =>
            dsimp only at hp ⊢
            by_cases hk : obs2 s2.k
            · rw [hk] at hp; simp at hp
            · rw [eq_false_of_ne_true hk] at hp ⊢
              simp only [Bool.false_eq_true, if_false] at hp ⊢
              by_cases hk2 : obs2 (s2.k + 1)
              · rw [hk2] at hp; simp at hp
              · rw [eq_false_of_ne_true hk2] at hp ⊢
                simpa using eq_false_of_ne_true hk2

/-- Claim C4 witness: with a token already cancelled, the query stage
returns the empty list and the detail stage the absence value. -/
theorem cancelled_token_empty_witness :
    (searchManPages envLs obsTrue ["ls".data] pstate0).1 = .ok []
    ∧ (getPageInfo envLs obsTrue "1|ls".data pstate0).1 = .ok none :=
  (cancelled_token_empty envLs obsTrue ["ls".data] "1|ls".data pstate0
    (fun _ _ => rfl)).1

theorem metasLoop_ids (env : SubprocEnv) (obs : Nat → Bool) :
    ∀ (rest : List Str) (acc : List ResultMeta) (s : PState) (ms : List ResultMeta),
      (metasLoop env obs rest acc s).1 = .ok ms →
      ms = [] ∨ ms.map ResultMeta.id = acc.map ResultMeta.id ++ rest := by
  intro rest
  induction rest with
  | nil =>
    intro acc s ms h
    unfold metasLoop at h
    by_cases h1 : obs s.k
    · rw [h1] at h; simp at h; exact .inl h
    · rw [eq_false_of_ne_true h1] at h
      simp at h
      right
      rw [← h]
      simp
  | cons ident rest ih =>
    intro acc s ms h
    unfold metasLoop at h
    by_cases h1 : obs s.k
    · rw [h1] at h; simp at h; exact .inl h
    · rw [eq_false_of_ne_true h1] at h
      simp only [Bool.false_eq_true, if_false] at h
      rcases hg : getPageInfo env obs ident ⟨s.k + 1, s.spawned⟩ with ⟨r2, s2⟩
      rw [hg] at h
      cases r2 with
      | error e => dsimp only at h; cases h
      | ok o =>
        cases o with
        | none => dsimp only at h; simp at h; exact .inl h
        | some p =>
          dsimp only at h
          rcases ih (acc ++ [⟨ident, p.1, p.2⟩]) s2 ms h with h2 | h2
          · exact .inl h2
          · right
            rw [h2]
            simp

/-- Claim C10: `getResultMetas` is all-or-nothing — every non-empty result
contains exactly one `ResultMeta` per input identifier, in input order,
with `meta.id` equal to that identifier (so if `getPageInfo` yielded the
absence value, or a cancellation check fired, anywhere along the loop, the
whole call returned the empty array instead). -/
theorem getResultMetas_all_or_nothing (env : SubprocEnv) (obs : Nat → Bool)
    (ids : List Str) (s : PState) (ms : List ResultMeta)
    (h : (getResultMetas env obs ids s).1 = .ok ms) (hne : ms ≠ []) :
    ms.map ResultMeta.id = ids := by
  unfold getResultMetas at h
  by_cases h1 : obs s.k
  · rw [h1] at h; simp at h; exact absurd h hne
  · rw [eq_false_of_ne_true h1] at h
    simp only [Bool.false_eq_true, if_false] at h
    rcases metasLoop_ids env obs ids [] ⟨s.k + 1, s.spawned⟩ ms h with h2 | h2
    · exact absurd h2 hne
    · simpa using h2

/-- Claim C10 witness: a successful run over one identifier returns exactly
one meta whose id is that identifier. -/
theorem getResultMetas_all_or_nothing_witness :
    (([⟨"1|ls".data, "ls (1)".data, "list directory contents".data⟩] :
        List ResultMeta).map ResultMeta.id) = ["1|ls".data] :=
  getResultMetas_all_or_nothing envLs obsFalse ["1|ls".data] pstate0
    [⟨"1|ls".data, "ls (1)".data, "list directory contents".data⟩]
    rfl (by decide)

theorem parseLines_spawned (obs : Nat → Bool) :
    ∀ (ls : List Str) (s : PState), ((parseLines obs ls s).2).spawned = s.spawned := by
  intro ls
  induction ls with
  | nil => intro s; rfl
  | cons l ls ih =>
    intro s
    unfold parseLines
    by_cases h1 : obs s.k
    · rw [h1]; rfl
    · rw [eq_false_of_ne_true h1]
      simp only [Bool.false_eq_true, if_false]
      rcases hp : parseLines obs ls ⟨s.k + 1, s.spawned⟩ with ⟨r, s2⟩
      have h2 := ih ⟨s.k + 1, s.spawned⟩
      rw [hp] at h2
      cases r with
      | ok ts => exact h2
      | error e => exact h2

theorem parseOutput_spawned (obs : Nat → Bool) (output : Str) (s : PState) :
    ((parseOutput obs output s).2).spawned = s.spawned := by
  unfold parseOutput
  by_cases h1 : obs s.k
  · rw [h1]; rfl
  · rw [eq_false_of_ne_true h1]
    simp only [Bool.false_eq_true, if_false]
    exact parseLines_spawned obs (linesOf output) ⟨s.k + 1, s.spawned⟩

theorem runSubprocess_spawned (env : SubprocEnv) (obs : Nat → Bool) (cmd : Str)
    (s : PState) (argv : List Str)
    (h0 : obs s.k = false) (hp : env.shellParse cmd = some argv) :
    ((runSubprocess env obs cmd s).2).spawned = s.spawned ++ [argv] := by
  unfold runSubprocess
  rw [h0, hp]
  simp only [Bool.false_eq_true, if_false]
  by_cases hs : env.spawnOk argv
  · rw [hs]
    simp only [if_true]
    rcases hc : env.communicate argv (s.k + 1) with ⟨rc, k2⟩
    cases rc with
    | error e => rfl
    | ok out =>
      rcases out with ⟨stdout, stderr⟩
      dsimp only
      rcases po : parseOutput obs stdout ⟨k2, s.spawned ++ [argv]⟩ with ⟨rp, s3⟩
      have h3 := parseOutput_spawned obs stdout ⟨k2, s.spawned ++ [argv]⟩
      rw [po] at h3
      cases rp with
      | ok ts => exact h3
      | error e => exact h3
  · rw [eq_false_of_ne_true hs]
    rfl

theorem searchManPages_spawned (env : SubprocEnv) (obs : Nat → Bool)
    (terms : List Str) (s : PState) (argv : List Str)
    (h0 : obs s.k = false) (h1 : obs (s.k + 1) = false)
    (hp : env.shellParse (aproposCommand terms) = some argv) :
    ((searchManPages env obs terms s).2).spawned = s.spawned ++ [argv] := by
  unfold searchManPages
  rw [h0]
  simp only [Bool.false_eq_true, if_false]
  rcases hrs : runSubprocess env obs (aproposCommand terms) ⟨s.k + 1, s.spawned⟩
    with ⟨r2, s2⟩
  have hsp : s2.spawned = s.spawned ++ [argv] := by
    have h2 := runSubprocess_spawned env obs (aproposCommand terms)
      ⟨s.k + 1, s.spawned⟩ argv h1 hp
    rw [hrs] at h2
    exact h2
  cases r2 with
  | error e => exact hsp
  | ok o =>
    cases o with
    | none => exact hsp
    | some ts =>
      dsimp only
      by_cases hl : ts.length = 0
      · rw [if_pos hl]; exact hsp
      · rw [if_neg hl]
        by_cases hk : obs s2.k
        · rw [hk]; exact hsp
        · rw [eq_false_of_ne_true hk]
          simp only [Bool.false_eq_true, if_false]
          by_cases hk2 : obs (s2.k + 1)
          · rw [hk2]; exact hsp
          · rw [eq_false_of_ne_true hk2]
            simp only [Bool.false_eq_true, if_false]
            exact hsp

/-- Claim C9: `getInitialResultSet` returns the empty list with no process
spawned whenever the terms list is empty or its first term is shorter than
2 characters; and the 2-character minimum is enforced only on the first
term — with any first term of length at least 2 the search engine is
invoked (a process spawn is recorded) no matter how short the remaining
terms are. -/
theorem getInitialResultSet_first_term_gate (env : SubprocEnv) (obs : Nat → Bool)
    (terms : List Str) (s : PState) :
    (firstTermLen terms < 2 →
      (getInitialResultSet env obs terms s).1 = .ok []
      ∧ ((getInitialResultSet env obs terms s).2).spawned = s.spawned)
    ∧ (∀ (t : Str) (rest : List Str) (argv : List Str), terms = t :: rest →
        2 ≤ t.length →
        obs s.k = false → obs (s.k + 1) = false → obs (s.k + 2) = false →
        env.shellParse (aproposCommand terms) = some argv →
        ((getInitialResultSet env obs terms s).2).spawned = s.spawned ++ [argv]) := by
  constructor
  · intro hlen
    unfold getInitialResultSet
    by_cases h1 : obs s.k
    · rw [h1]; exact ⟨rfl, rfl⟩
    · rw [eq_false_of_ne_true h1]
      simp only [Bool.false_eq_true, if_false]
      rw [if_pos hlen]
      exact ⟨rfl, rfl⟩
  · intro t rest argv hterms hlen h0 h1 h2 hp
    subst hterms
    unfold getInitialResultSet
    rw [h0]
    simp only [Bool.false_eq_true, if_false]
    have hnlt : ¬ (firstTermLen (t :: rest) < 2) := by
      simp only [firstTermLen]
      omega
    rw [if_neg hnlt]
    rcases hsm : searchManPages env obs (t :: rest) ⟨s.k + 1, s.spawned⟩
      with ⟨r2, s2⟩
    have hsp : s2.spawned = s.spawned ++ [argv] := by
      have h3 := searchManPages_spawned env obs (t :: rest)
        ⟨s.k + 1, s.spawned⟩ argv h1 h2 hp
      rw [hsm] at h3
      exact h3
    cases r2 with
    | error e => exact hsp
    | ok ids =>
      dsimp only
      by_cases hk : obs s2.k
      · rw [hk]; exact hsp
      · rw [eq_false_of_ne_true hk]
        simp only [Bool.false_eq_true, if_false]
        exact hsp

/-- Claim C9 witness: a one-character first term returns the empty list
without a spawn; a two-character first term invokes the engine even though
the second term is a single character. -/
theorem getInitialResultSet_first_term_gate_witness :
    ((getInitialResultSet envLs obsFalse ["l".data] pstate0).1 = .ok []
      ∧ ((getInitialResultSet envLs obsFalse ["l".data] pstate0).2).spawned = [])
    ∧ ((getInitialResultSet envLs obsFalse ["ls".data, "x".data] pstate0).2).spawned
        = [[aproposCommand ["ls".data, "x".data]]] := by
  constructor
  · exact (getInitialResultSet_first_term_gate envLs obsFalse ["l".data] pstate0).1
      (by decide)
  · have h := (getInitialResultSet_first_term_gate envLs obsFalse
      ["ls".data, "x".data] pstate0).2 "ls".data ["x".data]
      [aproposCommand ["ls".data, "x".data]] rfl (by decide) rfl rfl rfl rfl
    simpa using h

theorem parseLines_filterMap (obs : Nat → Bool) (h : ∀ i, obs i = false) :
    ∀ (ls : List Str) (s : PState),
      parseLines obs ls s = (.ok (ls.filterMap lineTuple), ⟨s.k + ls.length, s.spawned⟩) := by
  intro ls
  induction ls with
  | nil => intro s; simp [parseLines]
  | cons l ls ih =>
    intro s
    unfold parseLines
    rw [h s.k]
    simp only [Bool.false_eq_true, if_false]
    rw [ih ⟨s.k + 1, s.spawned⟩]
    have harith : s.k + 1 + ls.length = s.k + (ls.length + 1) := by omega
    cases hl : lineTuple l <;>
      simp [List.filterMap_cons, hl, harith]

/-- Claim C8: with a non-cancelled token, a line that does not match the
`name (section) - description` pattern contributes no tuple and does not
abort processing — the parse returns (without error) exactly the tuples of
the matching lines in input order, and removing a non-matching line from
the line sequence leaves the tuple sequence unchanged. -/
theorem parseOutput_skips_unmatched (obs : Nat → Bool) (output : Str) (s : PState)
    (h : ∀ i, obs i = false) :
    (parseOutput obs output s).1 = .ok ((linesOf output).filterMap lineTuple)
    ∧ (∀ (pre post : List Str) (bad : Str), matchLine bad = none →
        (pre ++ bad :: post).filterMap lineTuple = (pre ++ post).filterMap lineTuple) := by
  constructor
  · unfold parseOutput
    rw [h s.k]
    simp only [Bool.false_eq_true, if_false]
    rw [parseLines_filterMap obs h (linesOf output) ⟨s.k + 1, s.spawned⟩]
  · intro pre post bad hbad
    have hb : lineTuple bad = none := by simp [lineTuple, hbad]
    simp [List.filterMap_append, List.filterMap_cons, hb]

/-- Claim C8 witness: an unparseable middle line is skipped while the
well-formed lines before and after it still yield their tuples in order. -/
theorem parseOutput_skips_unmatched_witness :
    (parseOutput obsFalse "ls (1) - a\njunk\ncp (1) - b".data pstate0).1
      = .ok [("ls".data, "1".data, "a".data), ("cp".data, "1".data, "b".data)] := by
  have h := (parseOutput_skips_unmatched obsFalse
    "ls (1) - a\njunk\ncp (1) - b".data pstate0 (fun _ => rfl)).1
  exact h.trans rfl

/-! Lemmas for claim C5: splitting a separator-joined list of well-formed
lines recovers the lines, independently of which separator was used. -/

theorem mem_dropWhile_of_not_pred (p : Char → Bool) (x : Char) :
    ∀ (l : Str), p x = false → x ∈ l → x ∈ l.dropWhile p := by
  intro l
  induction l with
  | nil => intro _ hx; cases hx
  | cons a as ih =>
    intro hpx hx
    by_cases hpa : p a
    · rw [List.dropWhile_cons_of_pos hpa]
      rcases List.mem_cons.mp hx with rfl | hx2
      · rw [hpa] at hpx; cases hpx
      · exact ih hpx hx2
    · rw [List.dropWhile_cons_of_neg hpa]
      exact hx

theorem dropWhile_append_of_exists (p : Char → Bool) (a b : Str)
    (h : ∃ x ∈ a, p x = false) :
    (a ++ b).dropWhile p = a.dropWhile p ++ b := by
  induction a with
  | nil => rcases h with ⟨x, hx, _⟩; cases hx
  | cons c cs ih =>
    by_cases hpc : p c
    · rw [List.cons_append, List.dropWhile_cons_of_pos hpc,
        List.dropWhile_cons_of_pos hpc]
      apply ih
      rcases h with ⟨x, hx, hpx⟩
      rcases List.mem_cons.mp hx with rfl | hx2
      · rw [hpc] at hpx; cases hpx
      · exact ⟨x, hx2, hpx⟩
    · rw [List.cons_append, List.dropWhile_cons_of_neg hpc,
        List.dropWhile_cons_of_neg hpc, List.cons_append]

theorem hasContent_iff (l : Str) :
    hasContent l = true ↔ ∃ x ∈ l, isJsSpace x = false := by
  unfold hasContent
  rw [List.any_eq_true]
  constructor
  · rintro ⟨x, hx, hpx⟩
    exact ⟨x, hx, by simpa using hpx⟩
  · rintro ⟨x, hx, hpx⟩
    exact ⟨x, hx, by simpa using hpx⟩

theorem trimRight_append_of_content (a b : Str) (h : hasContent b = true) :
    trimRight (a ++ b) = a ++ trimRight b := by
  unfold trimRight
  rcases (hasContent_iff b).mp h with ⟨x, hx, hpx⟩
  rw [List.reverse_append,
    dropWhile_append_of_exists isJsSpace b.reverse a.reverse
      ⟨x, List.mem_reverse.mpr hx, hpx⟩,
    List.reverse_append, List.reverse_reverse]

theorem hasContent_append_left (a b : Str) (h : hasContent a = true) :
    hasContent (a ++ b) = true := by
  unfold hasContent at h ⊢
  rw [List.any_append, h, Bool.true_or]

theorem hasContent_append_right (a b : Str) (h : hasContent b = true) :
    hasContent (a ++ b) = true := by
  unfold hasContent at h ⊢
  rw [List.any_append, h, Bool.or_true]

theorem hasContent_trimRight (l : Str) (h : hasContent l = true) :
    hasContent (trimRight l) = true := by
  rcases (hasContent_iff l).mp h with ⟨x, hx, hpx⟩
  refine (hasContent_iff (trimRight l)).mpr ⟨x, ?_, hpx⟩
  unfold trimRight
  rw [List.mem_reverse]
  exact mem_dropWhile_of_not_pred isJsSpace x l.reverse hpx (List.mem_reverse.mpr hx)

theorem mem_of_mem_trimRight (l : Str) (x : Char) (h : x ∈ trimRight l) : x ∈ l := by
  unfold trimRight at h
  rw [List.mem_reverse] at h
  exact List.mem_reverse.mp ((List.dropWhile_sublist _).subset h)

theorem mapLast_ne_nil (f : Str → Str) (l : List Str) (h : l ≠ []) :
    mapLast f l ≠ [] := by
  match l with
  | [] => exact absurd rfl h
  | [x] => simp [mapLast]
  | x :: y :: ys => simp [mapLast]

theorem mem_mapLast (f : Str → Str) :
    ∀ (l : List Str) (x : Str), x ∈ mapLast f l → x ∈ l ∨ ∃ y ∈ l, x = f y := by
  intro l
  induction l with
  | nil => intro x hx; cases hx
  | cons a as ih =>
    intro x hx
    match as, hx with
    | [], hx =>
      rcases List.mem_singleton.mp hx with rfl
      exact .inr ⟨a, by simp, rfl⟩
    | b :: bs, hx =>
      rcases List.mem_cons.mp hx with rfl | hx2
      · exact .inl (by simp)
      · rcases ih x hx2 with h2 | ⟨y, hy, rfl⟩
        · exact .inl (List.mem_cons_of_mem a h2)
        · exact .inr ⟨y, List.mem_cons_of_mem a hy, rfl⟩

theorem joinSep_cons_of_ne_nil (sep : Str) (x : Str) (ls : List Str) (h : ls ≠ []) :
    joinSep sep (x :: ls) = x ++ sep ++ joinSep sep ls := by
  match ls with
  | [] => exact absurd rfl h
  | y :: ys => rfl

theorem hasContent_joinSep_head (sep : Str) (x : Str) (ls : List Str)
    (h : hasContent x = true) :
    hasContent (joinSep sep (x :: ls)) = true := by
  match ls with
  | [] => exact h
  | y :: ys =>
    rw [joinSep_cons_of_ne_nil sep x (y :: ys) (by simp), List.append_assoc]
    exact hasContent_append_left _ _ h

theorem trimRight_joinSep (sep : Char) (lines : List Str)
    (h : ∀ l ∈ lines, hasContent l = true) (hne : lines ≠ []) :
    trimRight (joinSep [sep] lines) = joinSep [sep] (mapLast trimRight lines) := by
  induction lines with
  | nil => exact absurd rfl hne
  | cons x ls ih =>
    match ls with
    | [] =>
      show trimRight (joinSep [sep] [x]) = joinSep [sep] [trimRight x]
      rfl
    | y :: ys =>
      have hy : hasContent (joinSep [sep] (y :: ys)) = true :=
        hasContent_joinSep_head [sep] y ys (h y (by simp))
      rw [joinSep_cons_of_ne_nil [sep] x (y :: ys) (by simp), List.append_assoc,
        trimRight_append_of_content x ([sep] ++ joinSep [sep] (y :: ys))
          (hasContent_append_right [sep] _ hy),
        trimRight_append_of_content [sep] (joinSep [sep] (y :: ys)) hy,
        ih (fun l hl => h l (List.mem_cons_of_mem x hl)) (by simp)]
      show x ++ ([sep] ++ joinSep [sep] (mapLast trimRight (y :: ys)))
        = joinSep [sep] (x :: mapLast trimRight (y :: ys))
      rw [joinSep_cons_of_ne_nil [sep] x (mapLast trimRight (y :: ys))
        (mapLast_ne_nil trimRight (y :: ys) (by simp)), List.append_assoc]

theorem trimLeft_joinSep (sep : Char) (c : Char) (cs : Str) (ls : List Str)
    (h : isJsSpace c = false) :
    trimLeft (joinSep [sep] ((c :: cs) :: ls)) = joinSep [sep] ((c :: cs) :: ls) := by
  match ls with
  | [] =>
    show trimLeft (c :: cs) = c :: cs
    unfold trimLeft
    exact List.dropWhile_cons_of_neg (by simp [h])
  | y :: ys =>
    rw [joinSep_cons_of_ne_nil [sep] (c :: cs) (y :: ys) (by simp)]
    unfold trimLeft
    rw [List.cons_append, List.cons_append]
    exact List.dropWhile_cons_of_neg (by simp [h])

theorem splitOnP_joinSep (p : Char → Bool) (sep : Char) (hsep : p sep = true) :
    ∀ (lines : List Str), (∀ l ∈ lines, ∀ c ∈ l, p c = false) → lines ≠ [] →
      splitOnP p (joinSep [sep] lines) = lines := by
  intro lines
  induction lines with
  | nil => intro _ hne; exact absurd rfl hne
  | cons x ls ih =>
    intro h hne
    match ls with
    | [] =>
      show splitOnP p (joinSep [sep] [x]) = [x]
      exact splitOnP_pure p x (h x (by simp))
    | y :: ys =>
      rw [joinSep_cons_of_ne_nil [sep] x (y :: ys) (by simp), List.append_assoc,
        splitOnP_append_pure p x ([sep] ++ joinSep [sep] (y :: ys)) (h x (by simp))]
      have : ([sep] ++ joinSep [sep] (y :: ys)) = sep :: joinSep [sep] (y :: ys) := rfl
      rw [this, splitOnP_sep_cons p sep _ hsep,
        ih (fun l hl => h l (List.mem_cons_of_mem x hl)) (by simp)]
      simp

theorem wfLine_head (l : Str) (h : (matchLine l).isSome = true) :
    ∃ c cs, l = c :: cs ∧ isJsSpace c = false := by
  match l with
  | [] => simp [matchLine] at h
  | c :: cs =>
    by_cases hc : isJsSpace c
    · have : List.takeWhile (fun x => !(isJsSpace x)) (c :: cs) = [] := by
        rw [List.takeWhile_cons_of_neg (by simp [hc])]
      rw [matchLine] at h
      rw [this] at h
      simp at h
    · exact ⟨c, cs, rfl, eq_false_of_ne_true hc⟩

theorem hasContent_of_wf (l : Str) (h : WfLine l) : hasContent l = true := by
  rcases wfLine_head l h.1 with ⟨c, cs, rfl, hc⟩
  exact (hasContent_iff _).mpr ⟨c, by simp, hc⟩

theorem sep_free_of_wf (l : Str) (h : WfLine l) : ∀ c ∈ l, isSep c = false := by
  intro c hc
  unfold isSep
  have h1 : c ≠ '\n' := fun he => h.2.1 (he ▸ hc)
  have h2 : c ≠ '\x00' := fun he => h.2.2 (he ▸ hc)
  simp [h1, h2]

theorem linesOf_joinSep (sep : Char) (hsep : isSep sep = true) (lines : List Str)
    (hwf : ∀ l ∈ lines, WfLine l) (hne : lines ≠ []) :
    linesOf (joinSep [sep] lines) = mapLast trimRight lines := by
  have hcontent : ∀ l ∈ lines, hasContent l = true :=
    fun l hl => hasContent_of_wf l (hwf l hl)
  unfold linesOf trimStr
  match lines, hne with
  | l0 :: ls, _ =>
    rcases wfLine_head l0 ((hwf l0 (by simp)).1) with ⟨c, cs, rfl, hc⟩
    rw [trimLeft_joinSep sep c cs ls hc,
      trimRight_joinSep sep ((c :: cs) :: ls) hcontent (by simp),
      splitOnP_joinSep isSep sep hsep (mapLast trimRight ((c :: cs) :: ls))
        ?pure (mapLast_ne_nil trimRight _ (by simp))]
    case pure =>
      intro l hl ch hch
      rcases mem_mapLast trimRight _ l hl with h2 | ⟨y, hy, rfl⟩
      · exact sep_free_of_wf l (hwf l h2) ch hch
      · exact sep_free_of_wf y (hwf y hy) ch (mem_of_mem_trimRight y ch hch)
    apply List.filter_eq_self.mpr
    intro a ha
    rcases mem_mapLast trimRight _ a ha with h2 | ⟨y, hy, rfl⟩
    · exact hcontent a h2
    · exact hasContent_trimRight y (hcontent y hy)

/-- Claim C5: for every list of well-formed `name (section) - description`
lines, `parseOutput` applied to the lines joined with the newline character
behaves exactly as `parseOutput` applied to the same lines joined with the
NUL character (same tuple sequence, same token observations). -/
theorem parseOutput_newline_nul_agree (obs : Nat → Bool) (s : PState)
    (lines : List Str) (hwf : ∀ l ∈ lines, WfLine l) :
    parseOutput obs (joinSep ['\n'] lines) s
      = parseOutput obs (joinSep ['\x00'] lines) s := by
  match lines with
  | [] => rfl
  | l :: ls =>
    have h1 := linesOf_joinSep '\n' rfl (l :: ls) hwf (by simp)
    have h2 := linesOf_joinSep '\x00' rfl (l :: ls) hwf (by simp)
    unfold parseOutput
    rw [h1, h2]

/-- Claim C5 witness: two concrete well-formed lines parse identically when
joined with the newline and with the NUL separator. -/
theorem parseOutput_newline_nul_agree_witness :
    parseOutput obsFalse
      (joinSep ['\n'] ["ls (1) - list files".data, "cp (1) - copy files".data]) pstate0
      = parseOutput obsFalse
      (joinSep ['\x00'] ["ls (1) - list files".data, "cp (1) - copy files".data]) pstate0 :=
  parseOutput_newline_nul_agree obsFalse pstate0
    ["ls (1) - list files".data, "cp (1) - copy files".data] (by decide)

end ManSearch
